import Mathlib

/-!
Verification development for the Morse-trainer application (`src/main.py`).

The definitions below are a shallow embedding of the session engine:
pure functions of `main.py` become Lean functions, the mutable trainer
object becomes an explicit `TrainerState` record, and every handler
(`handle_correct_answer`, `on_keyboard_event`, ...) becomes a state
transition function.  Python floats are modelled as rationals, Python
strings as lists of characters.
-/

set_option maxHeartbeats 1000000

namespace MorseTrainer

/-- Constant `BASE_DIT_DURATION = 0.08` from `main.py` line 46. -/
def BASE_DIT_DURATION : ℚ := 8/100

/-- Constant `CHALLENGE_STREAK_THRESHOLD = 5` from `main.py` line 47. -/
def CHALLENGE_STREAK_THRESHOLD : Nat := 5

/-- Constant `CHALLENGE_SPEED_STEP = 0.1` from `main.py` line 48. -/
def CHALLENGE_SPEED_STEP : ℚ := 1/10

/-- Constant `MAX_SPEED_MULTIPLIER = 2.0` from `main.py` line 49. -/
def MAX_SPEED_MULTIPLIER : ℚ := 2

/-- Constant `WEAK_SYMBOLS_LIMIT = 10` from `main.py` line 50. -/
def WEAK_SYMBOLS_LIMIT : Nat := 10

/-- The six values of `self.training_type` (strings in `main.py`). -/
inductive TrainingType where
  | normal
  | words
  | challenge
  | weak_spots
  | speed_test
  | time_attack
deriving DecidableEq, Repr

/-- The mutable trainer attributes touched by the session engine
(`main.py` lines 388-420), gathered into one record.  `symbol_stats` is
`{symbol: {"correct": c, "incorrect": i}}` kept in insertion order. -/
structure TrainerState where
  training_mode : Bool
  training_type : TrainingType
  is_playing : Bool
  input_event : Bool
  correct_answers : Nat
  incorrect_answers : Nat
  symbol_stats : List (Char × Nat × Nat)
  current_symbol : Option Char
  current_word : Option (List Char)
  speed_multiplier : ℚ
  challenge_correct_streak : Nat
  challenge_level : Nat
  speed_test_target : Nat
  speed_test_completed : Nat
deriving DecidableEq, Repr

/-- Python `str.upper()` on one character, restricted to the ASCII latin
letters and the Cyrillic/Ukrainian letters this application uses. -/
def pyUpper (c : Char) : Char :=
  if 'a' ≤ c ∧ c ≤ 'z' then Char.ofNat (c.toNat - 32)
  else if 'а' ≤ c ∧ c ≤ 'я' then Char.ofNat (c.toNat - 32)
  else if c = 'ё' then 'Ё'
  else if c = 'і' then 'І'
  else if c = 'ї' then 'Ї'
  else if c = 'є' then 'Є'
  else if c = 'ґ' then 'Ґ'
  else c

/-- Whitespace characters removed by Python `str.strip()`. -/
def isPySpace (c : Char) : Bool :=
  c == ' ' || c == '\t' || c == '\n' || c == '\r'

/-- Python `str.strip()`: drop leading and trailing whitespace. -/
def pyStrip (s : List Char) : List Char :=
  ((s.dropWhile isPySpace).reverse.dropWhile isPySpace).reverse

/-- The normalisation `str(input_text).strip().upper().replace(" ", "")`
applied in `check_word_answer` (`main.py` line 815). -/
def normalizeWordInput (s : List Char) : List Char :=
  ((pyStrip s).map pyUpper).filter (fun c => !(c == ' '))

/-- The dictionary lookup `self.morse_codes.get(symbol, "")`
(`main.py` lines 1068 and 1109); the alphabet table is an association
list from symbol to its dot/dash pattern. -/
def lookupCode (codes : List (Char × List Char)) (sym : Char) : List Char :=
  match codes.find? (fun p => p.1 == sym) with
  | some p => p.2
  | none => []

/-- The accumulation loop of `calculate_symbol_duration`
(`main.py` lines 1075-1083): a dot adds `dit`, a dash adds `3*dit`, and
every position except the last adds an inter-element gap of `dit`. -/
def calc_duration_loop (dit : ℚ) : List Char → ℚ
  | [] => 0
  | c :: rest =>
      (if c = '.' then dit else if c = '-' then 3 * dit else 0) +
        (if rest = [] then 0 else dit) + calc_duration_loop dit rest

/-- Function `calculate_symbol_duration` (`main.py` lines 1066-1085): unknown or
empty pattern yields the 0.5 s sentinel, otherwise the summed plan
duration with `dit = BASE_DIT_DURATION / speed_multiplier`. -/
def calculate_symbol_duration (codes : List (Char × List Char)) (speed : ℚ)
    (sym : Char) : ℚ :=
  let morse_code := lookupCode codes sym
  if morse_code = [] then 1/2
  else calc_duration_loop (BASE_DIT_DURATION / speed) morse_code

/-- The timing skeleton of `generate_morse_audio` (`main.py` lines
1106-1141): one (tone-duration, following-gap-duration) pair per mark;
a character that is neither dot nor dash is skipped (`continue`), and
the gap is emitted only when the mark is not at the last position. -/
def generate_audio_plan (dit : ℚ) : List Char → List (ℚ × ℚ)
  | [] => []
  | c :: rest =>
      if c = '.' then
        (dit, if rest = [] then 0 else dit) :: generate_audio_plan dit rest
      else if c = '-' then
        (3 * dit, if rest = [] then 0 else dit) :: generate_audio_plan dit rest
      else generate_audio_plan dit rest

/-- Total duration of a timing plan: sum of all tone and gap durations. -/
def plan_total (plan : List (ℚ × ℚ)) : ℚ :=
  (plan.map (fun p => p.1 + p.2)).sum

/-- The fixed keyboard-layout translation table `self.key_mapping`
(`main.py` lines 338-351): english key → russian letter, digits mapped
to themselves. -/
def key_mapping : List (Char × Char) :=
  [('Q', 'Й'), ('W', 'Ц'), ('E', 'У'), ('R', 'К'), ('T', 'Е'), ('Y', 'Н'),
   ('U', 'Г'), ('I', 'Ш'), ('O', 'Щ'), ('P', 'З'), ('[', 'Х'), (']', 'Ъ'),
   ('A', 'Ф'), ('S', 'Ы'), ('D', 'В'), ('F', 'А'), ('G', 'П'), ('H', 'Р'),
   ('J', 'О'), ('K', 'Л'), ('L', 'Д'), (';', 'Ж'), (Char.ofNat 39, 'Э'),
   ('Z', 'Я'), ('X', 'Ч'), ('C', 'С'), ('V', 'М'), ('B', 'И'), ('N', 'Т'),
   ('M', 'Ь'), (',', 'Б'), ('.', 'Ю'),
   ('0', '0'), ('1', '1'), ('2', '2'), ('3', '3'), ('4', '4'),
   ('5', '5'), ('6', '6'), ('7', '7'), ('8', '8'), ('9', '9')]

/-- The dictionary lookup `self.key_mapping.get(pressed_key)`
(`main.py` line 919). -/
def lookupKeyMapping (k : Char) : Option Char :=
  match key_mapping.find? (fun p => p.1 == k) with
  | some p => some p.2
  | none => none

/-- The guard `if symbol not in self.symbol_stats: ... = {"correct": 0,
"incorrect": 0}` used before every tally update. -/
def ensureStat (sym : Char) (stats : List (Char × Nat × Nat)) :
    List (Char × Nat × Nat) :=
  if stats.any (fun p => p.1 == sym) then stats else stats ++ [(sym, 0, 0)]

/-- Tally update `self.symbol_stats[symbol]["correct"] += 1`. -/
def bumpCorrect (sym : Char) (stats : List (Char × Nat × Nat)) :
    List (Char × Nat × Nat) :=
  stats.map (fun p => if p.1 == sym then (p.1, p.2.1 + 1, p.2.2) else p)

/-- Tally update `self.symbol_stats[symbol]["incorrect"] += 1`. -/
def bumpIncorrect (sym : Char) (stats : List (Char × Nat × Nat)) :
    List (Char × Nat × Nat) :=
  stats.map (fun p => if p.1 == sym then (p.1, p.2.1, p.2.2 + 1) else p)

/-- Handler `handle_correct_answer` (`main.py` lines 832-858): bump the correct
counter and the per-symbol tally, advance `speed_test_completed` in
speed-test mode, and in challenge mode advance the streak, levelling up
with speed `min(1 + (level-1)*0.1, 2.0)` once the streak reaches the
threshold. -/
def handle_correct_answer (st : TrainerState) : TrainerState :=
  let st1 := { st with correct_answers := st.correct_answers + 1 }
  let st2 :=
    match st1.current_symbol with
    | some sym =>
        { st1 with symbol_stats := bumpCorrect sym (ensureStat sym st1.symbol_stats) }
    | none => st1
  let st3 :=
    if st2.training_type = TrainingType.speed_test then
      { st2 with speed_test_completed := st2.speed_test_completed + 1 }
    else st2
  if st3.training_type = TrainingType.challenge then
    let streak := st3.challenge_correct_streak + 1
    if CHALLENGE_STREAK_THRESHOLD ≤ streak then
      let level : Nat := st3.challenge_level + 1
      { st3 with
        challenge_correct_streak := 0,
        challenge_level := level,
        speed_multiplier :=
          min (1 + ((level : ℚ) - 1) * CHALLENGE_SPEED_STEP) MAX_SPEED_MULTIPLIER }
    else { st3 with challenge_correct_streak := streak }
  else st3

/-- Handler `handle_incorrect_answer` (`main.py` lines 860-880): bump the
incorrect counter and the per-symbol tally, and in challenge mode reset
streak, level and speed. -/
def handle_incorrect_answer (st : TrainerState) : TrainerState :=
  let st1 := { st with incorrect_answers := st.incorrect_answers + 1 }
  let st2 :=
    match st1.current_symbol with
    | some sym =>
        { st1 with symbol_stats := bumpIncorrect sym (ensureStat sym st1.symbol_stats) }
    | none => st1
  if st2.training_type = TrainingType.challenge then
    { st2 with
      challenge_correct_streak := 0,
      challenge_level := 1,
      speed_multiplier := 1 }
  else st2

/-- Handler `check_word_answer` (`main.py` lines 809-830), returning the boolean
result together with the updated state.  A falsy pending word or falsy
input returns `False` untouched; otherwise the normalised input is
compared with the uppercased pending word. -/
def check_word_answer (st : TrainerState) (input_text : List Char) :
    Bool × TrainerState :=
  match st.current_word with
  | none => (false, st)
  | some w =>
    if w = [] then (false, st)
    else if input_text = [] then (false, st)
    else
      let normText := normalizeWordInput input_text
      if normText = [] then (false, st)
      else if normText = w.map pyUpper then
        (true, { st with correct_answers := st.correct_answers + 1 })
      else
        (false, { st with incorrect_answers := st.incorrect_answers + 1 })

/-- Python's truthiness test `not self.current_word`: no pending word or
an empty pending word. -/
def currentWordFalsy (st : TrainerState) : Bool :=
  match st.current_word with
  | none => true
  | some w => w.isEmpty

/-- Handler `on_word_submit` (`main.py` lines 994-1015): ignore the event
outside training mode, without a pending word, when the input-ready
signal is already set, or on empty input; otherwise set the signal and
run the word check. -/
def on_word_submit (st : TrainerState) (input_text : List Char) : TrainerState :=
  if !st.training_mode || currentWordFalsy st then st
  else if st.input_event then st
  else if input_text = [] then st
  else
    let st1 := { st with input_event := true }
    (check_word_answer st1 input_text).2

/-- Handler `on_keyboard_event` (`main.py` lines 882-925).  The event carries the
shift flag and `e.key` (absent, empty, one or several characters; the
handler uppercases it).  Guards in source order: shift held or not in
training mode; input-ready signal already set; words mode; no pending
symbol; key not a single character.  Then the signal is set, the tally
entry is ensured, and the press is scored by direct match or through the
keyboard-layout mapping. -/
def on_keyboard_event (st : TrainerState) (shift : Bool)
    (key : Option (List Char)) : TrainerState :=
  if shift || !st.training_mode then st
  else if st.input_event then st
  else if st.training_type = TrainingType.words then st
  else
    match st.current_symbol with
    | none => st
    | some sym =>
      match key.map (fun k => k.map pyUpper) with
      | none => st
      | some pressed =>
        match pressed with
        | [k] =>
          let st1 := { st with
            input_event := true,
            symbol_stats := ensureStat sym st.symbol_stats }
          if k = sym then handle_correct_answer st1
          else
            match lookupKeyMapping k with
            | some mapped =>
                if mapped = sym then handle_correct_answer st1
                else handle_incorrect_answer st1
            | none => handle_incorrect_answer st1
        | _ => st

/-- The `error_rates` dictionary of `get_weak_symbols` (`main.py` lines
463-468): symbols with at least one recorded answer, paired with
`incorrect / total`. -/
def error_rates (stats : List (Char × Nat × Nat)) : List (Char × ℚ) :=
  (stats.filter (fun p => decide (0 < p.2.1 + p.2.2))).map
    (fun p => (p.1, (p.2.2 : ℚ) / ((p.2.1 : ℚ) + (p.2.2 : ℚ))))

/-- Sorting step `sorted(error_rates.items(), key=lambda x: x[1], reverse=True)`
(`main.py` line 471): a stable sort, descending by error rate. -/
def sorted_symbols (stats : List (Char × Nat × Nat)) : List (Char × ℚ) :=
  (error_rates stats).mergeSort (fun a b => decide (b.2 ≤ a.2))

/-- The top slice `[sym for sym, rate in sorted_symbols[:WEAK_SYMBOLS_LIMIT]]`
(`main.py` line 474). -/
def weak_top (stats : List (Char × Nat × Nat)) : List Char :=
  ((sorted_symbols stats).take WEAK_SYMBOLS_LIMIT).map Prod.fst

/-- The intersection step `[s for s in weak_symbols if s in selected]`
(`main.py` lines 477-478), applied only when the selection is
non-empty. -/
def weak_filtered (stats : List (Char × Nat × Nat)) (selected : List Char) :
    List Char :=
  if selected = [] then weak_top stats
  else (weak_top stats).filter (fun s => selected.contains s)

/-- Function `get_weak_symbols` (`main.py` lines 455-481): with no error history
return the selection, otherwise the filtered top list, falling back to
the selection when that list is empty. -/
def get_weak_symbols (stats : List (Char × Nat × Nat)) (selected : List Char) :
    List Char :=
  if stats = [] then selected
  else if weak_filtered stats selected = [] then selected
  else weak_filtered stats selected

/-- The error rate the ranking uses, as a function of the symbol:
`incorrect / (correct + incorrect)` from the tally map, `0` for an
untracked symbol. -/
def errRate (stats : List (Char × Nat × Nat)) (sym : Char) : ℚ :=
  match stats.find? (fun p => p.1 == sym) with
  | some p => (p.2.2 : ℚ) / ((p.2.1 : ℚ) + (p.2.2 : ℚ))
  | none => 0

/-- The speed-test stop check at the head of `play_symbols_loop`
(`main.py` lines 661-672): in training mode with type speed-test, once
`speed_test_completed >= speed_test_target` the running flag is
cleared. -/
def speed_test_stop_check (st : TrainerState) : TrainerState :=
  if st.training_mode = true ∧ st.training_type = TrainingType.speed_test ∧
      st.speed_test_target ≤ st.speed_test_completed then
    { st with is_playing := false }
  else st

/-- The guarded accuracy expression
`(correct / (correct + incorrect) * 100) if (correct + incorrect) > 0 else 0`
used at `main.py` lines 523, 536, 549, 613, 621, 669, 678 and 1038. -/
def accuracy (correct incorrect : Nat) : ℚ :=
  if 0 < correct + incorrect then
    (correct : ℚ) / ((correct : ℚ) + (incorrect : ℚ)) * 100
  else 0

/-- The guarded words-per-minute expression
`(completed / 5) / (elapsed / 60) if elapsed > 0 else 0` used at
`main.py` lines 522, 612, 668 and 1026-1030. -/
def speed_test_wpm (completed : Nat) (elapsed : ℚ) : ℚ :=
  if 0 < elapsed then ((completed : ℚ) / 5) / (elapsed / 60) else 0

/-- A concrete running session state used by the witness theorems. -/
def baseState : TrainerState :=
  { training_mode := true
    training_type := TrainingType.normal
    is_playing := true
    input_event := false
    correct_answers := 0
    incorrect_answers := 0
    symbol_stats := []
    current_symbol := some 'С'
    current_word := none
    speed_multiplier := 1
    challenge_correct_streak := 0
    challenge_level := 1
    speed_test_target := 20
    speed_test_completed := 0 }

/-- State `baseState` with the input-ready signal already set. -/
def guardState : TrainerState := { baseState with input_event := true }

/-- State `baseState` switched to speed-test mode with the target reached. -/
def speedState : TrainerState :=
  { baseState with
    training_type := TrainingType.speed_test
    speed_test_target := 20
    speed_test_completed := 20 }

/-- State `baseState` switched to challenge mode with a streak of 4. -/
def challengeState : TrainerState :=
  { baseState with
    training_type := TrainingType.challenge
    challenge_correct_streak := 4
    challenge_level := 1 }

/-- State `baseState` switched to words mode with the pending word `СОС`. -/
def wordState : TrainerState :=
  { baseState with
    training_type := TrainingType.words
    current_symbol := none
    current_word := some ['С', 'О', 'С'] }

/-- Claim C8: for every symbol absent from the alphabet table, or whose
pattern is empty, the duration computation returns the fixed 0.5-second
sentinel instead of failing, for any speed multiplier. -/
theorem C8_unknown_symbol_sentinel (codes : List (Char × List Char))
    (sym : Char) (speed : ℚ) (h : lookupCode codes sym = []) :
    calculate_symbol_duration codes speed sym = 1/2 := by
  simp [calculate_symbol_duration, h]

theorem C8_unknown_symbol_sentinel_witness :
    lookupCode [('А', ['.', '-'])] 'Б' = [] ∧
    calculate_symbol_duration [('А', ['.', '-'])] (3/2) 'Б' = 1/2 :=
  ⟨by decide, C8_unknown_symbol_sentinel [('А', ['.', '-'])] 'Б' (3/2) (by decide)⟩

/-- Claim C9: with zero recorded answers the guarded accuracy expression
yields 0 rather than dividing by zero, and the guarded WPM expression
yields 0 when no time has elapsed. -/
theorem C9_zero_attempts_guard (correct incorrect completed : Nat)
    (elapsed : ℚ) (h : correct + incorrect = 0) (he : elapsed ≤ 0) :
    accuracy correct incorrect = 0 ∧ speed_test_wpm completed elapsed = 0 := by
  constructor
  · simp [accuracy, h]
  · simp [speed_test_wpm, not_lt.mpr he]

theorem C9_zero_attempts_guard_witness :
    0 + 0 = 0 ∧ (0 : ℚ) ≤ 0 ∧ accuracy 0 0 = 0 ∧ speed_test_wpm 7 0 = 0 :=
  ⟨rfl, le_refl 0,
   (C9_zero_attempts_guard 0 0 7 0 rfl (le_refl 0)).1,
   (C9_zero_attempts_guard 0 0 7 0 rfl (le_refl 0)).2⟩

/-- Claim C6: once the input-ready signal is set, a further keyboard
event or word-submit event leaves the whole session state unchanged —
in particular the counters, the per-symbol tallies and every mode
sub-state. -/
theorem C6_answer_guard (st : TrainerState) (h : st.input_event = true) :
    (∀ shift key, on_keyboard_event st shift key = st) ∧
    (∀ input_text, on_word_submit st input_text = st) := by
  constructor
  · intro shift key
    unfold on_keyboard_event
    simp [h]
  · intro input_text
    unfold on_word_submit
    simp [h]

theorem C6_answer_guard_witness :
    guardState.input_event = true ∧
    on_keyboard_event guardState false (some ['F']) = guardState ∧
    on_word_submit guardState ['А'] = guardState :=
  ⟨rfl, (C6_answer_guard guardState rfl).1 false (some ['F']),
   (C6_answer_guard guardState rfl).2 ['А']⟩

/-- Claim C4: in speed-test mode the completed counter advances by one
exactly on a correct answer, an incorrect answer leaves it unchanged,
and the playback-loop check clears the running flag exactly when the
completed counter has reached the target. -/
theorem C4_speed_test_progress (st : TrainerState)
    (hm : st.training_mode = true)
    (ht : st.training_type = TrainingType.speed_test)
    (hp : st.is_playing = true) :
    (handle_correct_answer st).speed_test_completed = st.speed_test_completed + 1 ∧
    (handle_incorrect_answer st).speed_test_completed = st.speed_test_completed ∧
    ((speed_test_stop_check st).is_playing = false ↔
      st.speed_test_target ≤ st.speed_test_completed) := by
  refine ⟨?_, ?_, ?_⟩
  · cases hcs : st.current_symbol <;>
      simp [handle_correct_answer, hcs, ht,
        apply_ite TrainerState.speed_test_completed]
  · cases hcs : st.current_symbol <;>
      simp [handle_incorrect_answer, hcs, ht,
        apply_ite TrainerState.speed_test_completed]
  · by_cases hc : st.speed_test_target ≤ st.speed_test_completed
    · simp [speed_test_stop_check, hm, ht, hc]
    · simp [speed_test_stop_check, hm, ht, hc, hp]

theorem C4_speed_test_progress_witness :
    speedState.training_mode = true ∧
    speedState.training_type = TrainingType.speed_test ∧
    speedState.is_playing = true ∧
    ((handle_correct_answer speedState).speed_test_completed =
        speedState.speed_test_completed + 1 ∧
      (handle_incorrect_answer speedState).speed_test_completed =
        speedState.speed_test_completed ∧
      ((speed_test_stop_check speedState).is_playing = false ↔
        speedState.speed_test_target ≤ speedState.speed_test_completed)) :=
  ⟨rfl, rfl, rfl, C4_speed_test_progress speedState rfl rfl rfl⟩

/-- Claim C2: in challenge mode a correct answer advances the streak;
once the incremented streak reaches the threshold of 5 the level rises
by one, the streak resets, and the speed becomes
`min(1 + (newLevel - 1) * 0.1, 2.0)`, i.e. `min(1 + oldLevel * 0.1, 2)`;
an incorrect answer resets streak to 0, level to 1 and speed to 1. -/
theorem C2_challenge_adaptation (st : TrainerState)
    (h : st.training_type = TrainingType.challenge) :
    (st.challenge_correct_streak + 1 < CHALLENGE_STREAK_THRESHOLD →
      (handle_correct_answer st).challenge_correct_streak =
          st.challenge_correct_streak + 1 ∧
      (handle_correct_answer st).challenge_level = st.challenge_level ∧
      (handle_correct_answer st).speed_multiplier = st.speed_multiplier) ∧
    (CHALLENGE_STREAK_THRESHOLD ≤ st.challenge_correct_streak + 1 →
      (handle_correct_answer st).challenge_correct_streak = 0 ∧
      (handle_correct_answer st).challenge_level = st.challenge_level + 1 ∧
      (handle_correct_answer st).speed_multiplier =
        min (1 + (st.challenge_level : ℚ) * CHALLENGE_SPEED_STEP)
          MAX_SPEED_MULTIPLIER) ∧
    ((handle_incorrect_answer st).challenge_correct_streak = 0 ∧
     (handle_incorrect_answer st).challenge_level = 1 ∧
     (handle_incorrect_answer st).speed_multiplier = 1) := by
  refine ⟨?_, ?_, ?_⟩
  · intro hlt
    cases hcs : st.current_symbol <;>
      simp [handle_correct_answer, hcs, h, Nat.not_le.mpr hlt]
  · intro hge
    cases hcs : st.current_symbol <;>
      simp [handle_correct_answer, hcs, h, hge]
  · cases hcs : st.current_symbol <;>
      simp [handle_incorrect_answer, hcs, h]

theorem C2_challenge_adaptation_witness :
    challengeState.training_type = TrainingType.challenge ∧
    (challengeState.challenge_correct_streak + 1 < CHALLENGE_STREAK_THRESHOLD →
      (handle_correct_answer challengeState).challenge_correct_streak =
          challengeState.challenge_correct_streak + 1 ∧
      (handle_correct_answer challengeState).challenge_level =
          challengeState.challenge_level ∧
      (handle_correct_answer challengeState).speed_multiplier =
          challengeState.speed_multiplier) ∧
    (CHALLENGE_STREAK_THRESHOLD ≤ challengeState.challenge_correct_streak + 1 →
      (handle_correct_answer challengeState).challenge_correct_streak = 0 ∧
      (handle_correct_answer challengeState).challenge_level =
          challengeState.challenge_level + 1 ∧
      (handle_correct_answer challengeState).speed_multiplier =
        min (1 + (challengeState.challenge_level : ℚ) * CHALLENGE_SPEED_STEP)
          MAX_SPEED_MULTIPLIER) ∧
    ((handle_incorrect_answer challengeState).challenge_correct_streak = 0 ∧
     (handle_incorrect_answer challengeState).challenge_level = 1 ∧
     (handle_incorrect_answer challengeState).speed_multiplier = 1) :=
  ⟨rfl,
   (C2_challenge_adaptation challengeState rfl).1,
   (C2_challenge_adaptation challengeState rfl).2.1,
   (C2_challenge_adaptation challengeState rfl).2.2⟩

/-- Claim C5: the words-mode answer check accepts exactly when the typed
text, trimmed, uppercased and space-stripped, equals the uppercased
pending word; acceptance bumps the correct counter, and a rejected
non-empty normalised input bumps the incorrect counter. -/
theorem C5_word_answer (st : TrainerState) (w : List Char)
    (hw : st.current_word = some w) (hne : w ≠ []) (input_text : List Char) :
    ((check_word_answer st input_text).1 = true ↔
      normalizeWordInput input_text = w.map pyUpper) ∧
    ((check_word_answer st input_text).1 = true →
      (check_word_answer st input_text).2.correct_answers =
          st.correct_answers + 1 ∧
      (check_word_answer st input_text).2.incorrect_answers =
          st.incorrect_answers) ∧
    ((check_word_answer st input_text).1 = false →
      normalizeWordInput input_text ≠ [] →
      (check_word_answer st input_text).2.incorrect_answers =
          st.incorrect_answers + 1 ∧
      (check_word_answer st input_text).2.correct_answers =
          st.correct_answers) := by
  have hmapne : w.map pyUpper ≠ [] := by
    simpa [List.map_eq_nil_iff] using hne
  by_cases hit : input_text = []
  · subst hit
    have hnorm : normalizeWordInput [] = [] := rfl
    refine ⟨?_, ?_, ?_⟩
    · simp [check_word_answer, hw, hne, hnorm, Ne.symm hmapne]
    · simp [check_word_answer, hw, hne]
    · intro _ hcontra
      exact absurd hnorm hcontra
  · by_cases hn : normalizeWordInput input_text = []
    · refine ⟨?_, ?_, ?_⟩
      · simp [check_word_answer, hw, hne, hit, hn, Ne.symm hmapne]
      · simp [check_word_answer, hw, hne, hit, hn]
      · intro _ hcontra
        exact absurd hn hcontra
    · by_cases heq : normalizeWordInput input_text = w.map pyUpper
      · refine ⟨?_, ?_, ?_⟩
        · simp [check_word_answer, hw, hne, hit, hn, heq]
        · simp [check_word_answer, hw, hne, hit, hn, heq]
        · simp [check_word_answer, hw, hne, hit, hn, heq]
      · refine ⟨?_, ?_, ?_⟩
        · simp [check_word_answer, hw, hne, hit, hn, heq]
        · simp [check_word_answer, hw, hne, hit, hn, heq]
        · simp [check_word_answer, hw, hne, hit, hn, heq]

theorem C5_word_answer_witness :
    wordState.current_word = some ['С', 'О', 'С'] ∧
    (['С', 'О', 'С'] : List Char) ≠ [] ∧
    normalizeWordInput ['S', 'O', 'S'] ≠ ['С', 'О', 'С'].map pyUpper ∧
    normalizeWordInput [' ', 'с', 'о', 'с', ' '] = ['С', 'О', 'С'].map pyUpper ∧
    ((check_word_answer wordState ['S', 'O', 'S']).1 = true ↔
      normalizeWordInput ['S', 'O', 'S'] = ['С', 'О', 'С'].map pyUpper) ∧
    ((check_word_answer wordState [' ', 'с', 'о', 'с', ' ']).1 = true ↔
      normalizeWordInput [' ', 'с', 'о', 'с', ' '] = ['С', 'О', 'С'].map pyUpper) :=
  ⟨rfl, by decide, by decide, by decide,
   (C5_word_answer wordState ['С', 'О', 'С'] rfl (by decide) ['S', 'O', 'S']).1,
   (C5_word_answer wordState ['С', 'О', 'С'] rfl (by decide)
     [' ', 'с', 'о', 'с', ' ']).1⟩

theorem handle_correct_answer_counters (st : TrainerState) :
    (handle_correct_answer st).correct_answers = st.correct_answers + 1 ∧
    (handle_correct_answer st).incorrect_answers = st.incorrect_answers := by
  cases hcs : st.current_symbol <;>
    simp [handle_correct_answer, hcs,
      apply_ite TrainerState.correct_answers,
      apply_ite TrainerState.incorrect_answers]

theorem handle_incorrect_answer_counters (st : TrainerState) :
    (handle_incorrect_answer st).incorrect_answers = st.incorrect_answers + 1 ∧
    (handle_incorrect_answer st).correct_answers = st.correct_answers := by
  cases hcs : st.current_symbol <;>
    simp [handle_incorrect_answer, hcs,
      apply_ite TrainerState.correct_answers,
      apply_ite TrainerState.incorrect_answers]

/-- Reduction of `on_keyboard_event` for a shiftless single-character
key press while an answer is awaited: the press is scored correct when
the uppercased key equals the pending symbol directly or through the
keyboard-layout mapping, and incorrect otherwise. -/
theorem on_keyboard_event_single (st : TrainerState) (sym c : Char)
    (hm : st.training_mode = true) (he : st.input_event = false)
    (hw : st.training_type ≠ TrainingType.words)
    (hs : st.current_symbol = some sym) :
    on_keyboard_event st false (some [c]) =
      (if pyUpper c = sym ∨ lookupKeyMapping (pyUpper c) = some sym then
        handle_correct_answer
          { st with
            input_event := true,
            symbol_stats := ensureStat sym st.symbol_stats }
      else
        handle_incorrect_answer
          { st with
            input_event := true,
            symbol_stats := ensureStat sym st.symbol_stats }) := by
  unfold on_keyboard_event
  by_cases h1 : pyUpper c = sym
  · simp [hm, he, hw, hs, h1]
  · cases hlk : lookupKeyMapping (pyUpper c) with
    | none => simp [hm, he, hw, hs, h1, hlk]
    | some m =>
      by_cases h2 : m = sym <;> simp [hm, he, hw, hs, h1, hlk, h2]

/-- Claim C7: in symbol training modes a key press is scored correct
exactly when the uppercased key equals the pending symbol directly or
maps to it through the keyboard-layout table; any other single-character
key is scored incorrect; a press with shift held never changes the
state. -/
theorem C7_key_scoring (st : TrainerState) (sym c : Char)
    (hm : st.training_mode = true) (he : st.input_event = false)
    (hw : st.training_type ≠ TrainingType.words)
    (hs : st.current_symbol = some sym) :
    (∀ key, on_keyboard_event st true key = st) ∧
    (((on_keyboard_event st false (some [c])).correct_answers =
        st.correct_answers + 1 ∧
      (on_keyboard_event st false (some [c])).incorrect_answers =
        st.incorrect_answers) ↔
      (pyUpper c = sym ∨ lookupKeyMapping (pyUpper c) = some sym)) ∧
    (((on_keyboard_event st false (some [c])).incorrect_answers =
        st.incorrect_answers + 1 ∧
      (on_keyboard_event st false (some [c])).correct_answers =
        st.correct_answers) ↔
      ¬(pyUpper c = sym ∨ lookupKeyMapping (pyUpper c) = some sym)) := by
  refine ⟨?_, ?_, ?_⟩
  · intro key
    unfold on_keyboard_event
    simp
  · rw [on_keyboard_event_single st sym c hm he hw hs]
    by_cases hcond : pyUpper c = sym ∨ lookupKeyMapping (pyUpper c) = some sym
    · simp [hcond, handle_correct_answer_counters]
    · simp [hcond, (handle_incorrect_answer_counters _).1,
        (handle_incorrect_answer_counters _).2]
  · rw [on_keyboard_event_single st sym c hm he hw hs]
    by_cases hcond : pyUpper c = sym ∨ lookupKeyMapping (pyUpper c) = some sym
    · simp [hcond, (handle_correct_answer_counters _).1,
        (handle_correct_answer_counters _).2]
    · simp [hcond, (handle_incorrect_answer_counters _).1,
        (handle_incorrect_answer_counters _).2]

theorem C7_key_scoring_witness :
    baseState.training_mode = true ∧
    baseState.input_event = false ∧
    baseState.training_type ≠ TrainingType.words ∧
    baseState.current_symbol = some 'С' ∧
    (pyUpper 'c' = 'С' ∨ lookupKeyMapping (pyUpper 'c') = some 'С') ∧
    (((on_keyboard_event baseState false (some ['c'])).correct_answers =
        baseState.correct_answers + 1 ∧
      (on_keyboard_event baseState false (some ['c'])).incorrect_answers =
        baseState.incorrect_answers) ↔
      (pyUpper 'c' = 'С' ∨ lookupKeyMapping (pyUpper 'c') = some 'С')) :=
  ⟨rfl, rfl, by decide, rfl, by decide,
   (C7_key_scoring baseState 'С' 'c' rfl rfl (by decide) rfl).2.1⟩

/-- Claim C10: in words mode a non-empty but whitespace-only submission
releases the input-wait signal while leaving both counters untouched:
the state change is exactly `input_event := true`, and the word check
itself returns `false`. -/
theorem C10_whitespace_submit (st : TrainerState) (w input_text : List Char)
    (hm : st.training_mode = true) (hw : st.current_word = some w)
    (hne : w ≠ []) (he : st.input_event = false) (hni : input_text ≠ [])
    (hws : ∀ c ∈ input_text, isPySpace c = true) :
    on_word_submit st input_text = { st with input_event := true } ∧
    (check_word_answer { st with input_event := true } input_text).1 = false := by
  have hdrop : input_text.dropWhile isPySpace = [] :=
    List.dropWhile_eq_nil_iff.mpr hws
  have hnorm : normalizeWordInput input_text = [] := by
    simp [normalizeWordInput, pyStrip, hdrop]
  have hfalsy : currentWordFalsy st = false := by
    simp [currentWordFalsy, hw, hne]
  constructor
  · simp [on_word_submit, check_word_answer, hm, hfalsy, he, hni, hw, hne, hnorm]
  · simp [check_word_answer, hw, hne, hni, hnorm]

theorem C10_whitespace_submit_witness :
    wordState.training_mode = true ∧
    wordState.current_word = some ['С', 'О', 'С'] ∧
    wordState.input_event = false ∧
    ([' ', ' '] : List Char) ≠ [] ∧
    (∀ c ∈ ([' ', ' '] : List Char), isPySpace c = true) ∧
    (on_word_submit wordState [' ', ' '] = { wordState with input_event := true } ∧
     (check_word_answer { wordState with input_event := true } [' ', ' ']).1 =
       false) :=
  ⟨rfl, rfl, rfl, by decide, by decide,
   C10_whitespace_submit wordState ['С', 'О', 'С'] [' ', ' '] rfl rfl
     (by decide) rfl (by decide) (by decide)⟩

/-- Audio plan of a pattern split as `q ++ [last]`, all marks: one pair
per mark, gap `dit` after every mark of `q`, gap `0` after `last`. -/
theorem generate_audio_plan_append_last (dit : ℚ) :
    ∀ (q : List Char) (lst : Char), (∀ c ∈ q ++ [lst], c = '.' ∨ c = '-') →
      generate_audio_plan dit (q ++ [lst]) =
        q.map (fun c => (if c = '.' then dit else 3 * dit, dit)) ++
          [(if lst = '.' then dit else 3 * dit, 0)]
  | [], lst, hm => by
      rcases hm lst (by simp) with h | h <;> simp [generate_audio_plan, h]
  | a :: q, lst, hm => by
      have ih := generate_audio_plan_append_last dit q lst
        (fun c hc => hm c (List.mem_cons_of_mem a hc))
      rcases hm a (by simp) with h | h <;>
        simp [generate_audio_plan, h, ih]

/-- One unfolding step of the duration loop. -/
theorem calc_duration_loop_cons (dit : ℚ) (c : Char) (rest : List Char) :
    calc_duration_loop dit (c :: rest) =
      (if c = '.' then dit else if c = '-' then 3 * dit else 0) +
        (if rest = [] then 0 else dit) + calc_duration_loop dit rest := rfl

/-- The duration loop on a non-empty all-marks pattern sums to
`(dots + 3 * dashes + (marks - 1)) * dit`. -/
theorem calc_duration_loop_count (dit : ℚ) :
    ∀ (p : List Char), p ≠ [] → (∀ c ∈ p, c = '.' ∨ c = '-') →
      calc_duration_loop dit p =
        ((p.count '.' : ℚ) + 3 * (p.count '-' : ℚ) +
          ((p.length - 1 : ℕ) : ℚ)) * dit
  | [c], _, hm => by
      rcases hm c (by simp) with h | h <;>
        simp [calc_duration_loop, h, List.count_cons] <;> ring
  | a :: b :: rest, _, hm => by
      have ih := calc_duration_loop_count dit (b :: rest) (by simp)
        (fun c hc => hm c (List.mem_cons_of_mem a hc))
      rw [calc_duration_loop_cons, ih]
      rcases hm a (by simp) with h | h <;>
        · rw [h]
          simp [List.count_cons]
          push_cast
          ring

/-- On an all-marks pattern the plan total agrees with the duration
loop of `calculate_symbol_duration`. -/
theorem plan_total_eq_calc (dit : ℚ) :
    ∀ (p : List Char), (∀ c ∈ p, c = '.' ∨ c = '-') →
      plan_total (generate_audio_plan dit p) = calc_duration_loop dit p
  | [], _ => by simp [generate_audio_plan, calc_duration_loop, plan_total]
  | a :: rest, hm => by
      have ih := plan_total_eq_calc dit rest
        (fun c hc => hm c (List.mem_cons_of_mem a hc))
      rcases hm a (by simp) with h | h <;> cases rest with
      | nil => simp [generate_audio_plan, calc_duration_loop, plan_total, h]
      | cons b r =>
          simp [generate_audio_plan, calc_duration_loop, plan_total, h] at ih ⊢ <;>
            rw [ih] <;> ring

/-- Claim C1: for a symbol whose pattern is a non-empty sequence of dots
and dashes and any speed `s > 0`, the audio plan gives each dot the tone
duration `BASE_DIT/s`, each dash `3*BASE_DIT/s`, an inter-mark gap of
`BASE_DIT/s` after every mark except the last and no trailing gap, and
the total duration — also as computed by `calculate_symbol_duration` —
is `(dots + 3*dashes + (marks-1)) * BASE_DIT/s`. -/
theorem C1_timing_plan (codes : List (Char × List Char)) (sym : Char)
    (p : List Char) (s : ℚ) (hs : 0 < s) (hc : lookupCode codes sym = p)
    (hne : p ≠ []) (hm : ∀ c ∈ p, c = '.' ∨ c = '-') :
    generate_audio_plan (BASE_DIT_DURATION / s) p =
      p.dropLast.map (fun c =>
        (if c = '.' then BASE_DIT_DURATION / s
          else 3 * (BASE_DIT_DURATION / s), BASE_DIT_DURATION / s)) ++
        [(if p.getLast hne = '.' then BASE_DIT_DURATION / s
          else 3 * (BASE_DIT_DURATION / s), 0)] ∧
    calculate_symbol_duration codes s sym =
      ((p.count '.' : ℚ) + 3 * (p.count '-' : ℚ) +
        ((p.length - 1 : ℕ) : ℚ)) * (BASE_DIT_DURATION / s) ∧
    plan_total (generate_audio_plan (BASE_DIT_DURATION / s) p) =
      calculate_symbol_duration codes s sym := by
  have hcalc : calculate_symbol_duration codes s sym =
      calc_duration_loop (BASE_DIT_DURATION / s) p := by
    simp [calculate_symbol_duration, hc, hne]
  refine ⟨?_, ?_, ?_⟩
  · conv_lhs => rw [← List.dropLast_append_getLast hne]
    exact generate_audio_plan_append_last (BASE_DIT_DURATION / s) p.dropLast
      (p.getLast hne) (by rw [List.dropLast_append_getLast hne]; exact hm)
  · rw [hcalc]
    exact calc_duration_loop_count (BASE_DIT_DURATION / s) p hne hm
  · rw [hcalc]
    exact plan_total_eq_calc (BASE_DIT_DURATION / s) p hm

theorem C1_timing_plan_witness :
    (0 : ℚ) < 1 ∧
    lookupCode [('А', ['.', '-'])] 'А' = ['.', '-'] ∧
    (['.', '-'] : List Char) ≠ [] ∧
    (generate_audio_plan (BASE_DIT_DURATION / 1) ['.', '-'] =
      (['.', '-'] : List Char).dropLast.map (fun c =>
        (if c = '.' then BASE_DIT_DURATION / 1
          else 3 * (BASE_DIT_DURATION / 1), BASE_DIT_DURATION / 1)) ++
        [(if (['.', '-'] : List Char).getLast (by decide) = '.' then
            BASE_DIT_DURATION / 1
          else 3 * (BASE_DIT_DURATION / 1), 0)] ∧
      calculate_symbol_duration [('А', ['.', '-'])] 1 'А' =
        (((['.', '-'] : List Char).count '.' : ℚ) +
          3 * ((['.', '-'] : List Char).count '-' : ℚ) +
          (((['.', '-'] : List Char).length - 1 : ℕ) : ℚ)) *
          (BASE_DIT_DURATION / 1) ∧
      plan_total (generate_audio_plan (BASE_DIT_DURATION / 1) ['.', '-']) =
        calculate_symbol_duration [('А', ['.', '-'])] 1 'А') :=
  ⟨by decide, by decide, by decide,
   C1_timing_plan [('А', ['.', '-'])] 'А' ['.', '-'] 1 (by decide)
     (by decide) (by decide) (by decide)⟩

/-- In an association list with distinct keys, `find?` on a member's key
returns exactly that member. -/
theorem find?_eq_some_of_nodup :
    ∀ (stats : List (Char × Nat × Nat)), (stats.map Prod.fst).Nodup →
      ∀ p ∈ stats, stats.find? (fun q => q.1 == p.1) = some p := by
  intro stats
  induction stats with
  | nil => intro _ p hp; cases hp
  | cons q rest ih =>
      intro hnd p hp
      rw [List.map_cons, List.nodup_cons] at hnd
      rcases List.mem_cons.mp hp with rfl | hmem
      · simp [List.find?]
      · have hne : (q.1 == p.1) = false := by
          simp only [beq_eq_false_iff_ne, ne_eq]
          intro hcontra
          exact hnd.1 (hcontra ▸ List.mem_map_of_mem Prod.fst hmem)
        simp only [List.find?, hne]
        exact ih hnd.2 p hmem

/-- Every entry of the `error_rates` dictionary carries exactly the
error rate of its symbol. -/
theorem error_rates_snd (stats : List (Char × Nat × Nat))
    (hnd : (stats.map Prod.fst).Nodup) :
    ∀ pr ∈ error_rates stats, pr.2 = errRate stats pr.1 := by
  intro pr hpr
  simp only [error_rates, List.mem_map, List.mem_filter] at hpr
  obtain ⟨q, ⟨hqmem, _⟩, rfl⟩ := hpr
  simp [errRate, find?_eq_some_of_nodup stats hnd q hqmem]

/-- The sorted list of `get_weak_symbols` is descending in the recorded
rate. -/
theorem sorted_symbols_pairwise (stats : List (Char × Nat × Nat)) :
    (sorted_symbols stats).Pairwise (fun a b => b.2 ≤ a.2) := by
  have h := @List.sorted_mergeSort (Char × ℚ)
    (fun a b => decide (b.2 ≤ a.2))
    (fun a b c hab hbc => by
      simp only [decide_eq_true_eq] at *
      exact le_trans hbc hab)
    (fun a b => by
      simp only [Bool.or_eq_true, decide_eq_true_eq]
      exact le_total b.2 a.2)
    (error_rates stats)
  exact h.imp (fun hab => by simpa using hab)

/-- The top-10 slice, projected to symbols, is descending in error
rate. -/
theorem weak_top_pairwise (stats : List (Char × Nat × Nat))
    (hnd : (stats.map Prod.fst).Nodup) :
    (weak_top stats).Pairwise (fun x y => errRate stats y ≤ errRate stats x) := by
  have htake : ((sorted_symbols stats).take WEAK_SYMBOLS_LIMIT).Pairwise
      (fun a b : Char × ℚ => b.2 ≤ a.2) :=
    (sorted_symbols_pairwise stats).sublist (List.take_sublist _ _)
  have hmem : ∀ pr ∈ (sorted_symbols stats).take WEAK_SYMBOLS_LIMIT,
      pr.2 = errRate stats pr.1 := by
    intro pr hpr
    exact error_rates_snd stats hnd pr
      (List.mem_mergeSort.mp (List.mem_of_mem_take hpr))
  rw [weak_top, List.pairwise_map]
  exact htake.imp_of_mem (fun ha hb hr => by
    rw [← hmem _ ha, ← hmem _ hb]; exact hr)

/-- Claim C3: in weak-spots mode the candidate pool is the top-10
highest-error-rate slice intersected with the current selection — pool
members lie in the selection and are listed in non-increasing error
rate, so a selected symbol with a strictly higher rate ranks before one
with a lower rate; any tracked symbol left out of the top slice has a
rate no greater than every symbol in it; and with no error history, or
an empty intersection, the pool falls back to the full selection. -/
theorem C3_weak_spots (stats : List (Char × Nat × Nat)) (selected : List Char)
    (hnd : (stats.map Prod.fst).Nodup) (hsel : selected ≠ []) :
    (stats = [] → get_weak_symbols stats selected = selected) ∧
    (get_weak_symbols stats selected =
      if weak_filtered stats selected = [] then selected
      else weak_filtered stats selected) ∧
    (∀ x ∈ weak_filtered stats selected, x ∈ selected) ∧
    (weak_filtered stats selected).Pairwise
      (fun x y => errRate stats y ≤ errRate stats x) ∧
    (∀ x ∈ (error_rates stats).map Prod.fst, x ∉ weak_top stats →
      ∀ y ∈ weak_top stats, errRate stats x ≤ errRate stats y) := by
  refine ⟨?_, ?_, ?_, ?_, ?_⟩
  · intro h
    simp [get_weak_symbols, h]
  · by_cases hst : stats = []
    · subst hst
      have hw : weak_filtered [] selected = [] := by
        simp [weak_filtered, weak_top, sorted_symbols, error_rates, hsel]
      simp [get_weak_symbols, hw]
    · simp [get_weak_symbols, hst]
  · intro x hx
    rw [weak_filtered, if_neg hsel] at hx
    obtain ⟨b, hb, hab⟩ :=
      List.contains_iff_exists_mem_beq.mp (List.mem_filter.mp hx).2
    have hxb : x = b := beq_iff_eq.mp hab
    rw [hxb]
    exact hb
  · rw [weak_filtered, if_neg hsel]
    exact (weak_top_pairwise stats hnd).sublist (List.filter_sublist _)
  · intro x hx hnot y hy
    obtain ⟨pr, hprmem, rfl⟩ := List.mem_map.mp hx
    have hprsorted : pr ∈ sorted_symbols stats := List.mem_mergeSort.mpr hprmem
    have hsplit : (sorted_symbols stats).take WEAK_SYMBOLS_LIMIT ++
        (sorted_symbols stats).drop WEAK_SYMBOLS_LIMIT = sorted_symbols stats :=
      List.take_append_drop _ _
    have hprdrop : pr ∈ (sorted_symbols stats).drop WEAK_SYMBOLS_LIMIT := by
      rcases List.mem_append.mp (by rw [hsplit]; exact hprsorted) with h | h
      · exact absurd (List.mem_map_of_mem Prod.fst h) hnot
      · exact h
    obtain ⟨qr, hqrtake, rfl⟩ := List.mem_map.mp hy
    have hpw := sorted_symbols_pairwise stats
    rw [← hsplit] at hpw
    have hrel : pr.2 ≤ qr.2 :=
      (List.pairwise_append.mp hpw).2.2 qr hqrtake pr hprdrop
    have hpr2 : pr.2 = errRate stats pr.1 :=
      error_rates_snd stats hnd pr hprmem
    have hqr2 : qr.2 = errRate stats qr.1 :=
      error_rates_snd stats hnd qr
        (List.mem_mergeSort.mp (List.mem_of_mem_take hqrtake))
    rw [← hpr2, ← hqr2]
    exact hrel

theorem C3_weak_spots_witness :
    ((([('А', 1, 4), ('Б', 4, 1)] : List (Char × Nat × Nat)).map
        Prod.fst).Nodup) ∧
    (['А', 'Б'] : List Char) ≠ [] ∧
    errRate [('А', 1, 4), ('Б', 4, 1)] 'А' = 4/5 ∧
    errRate [('А', 1, 4), ('Б', 4, 1)] 'Б' = 1/5 ∧
    ((∀ x ∈ weak_filtered [('А', 1, 4), ('Б', 4, 1)] ['А', 'Б'],
        x ∈ (['А', 'Б'] : List Char)) ∧
      (weak_filtered [('А', 1, 4), ('Б', 4, 1)] ['А', 'Б']).Pairwise
        (fun x y => errRate [('А', 1, 4), ('Б', 4, 1)] y ≤
          errRate [('А', 1, 4), ('Б', 4, 1)] x)) :=
  ⟨by decide, by decide,
   by
     simp [errRate, List.find?]
     norm_num,
   by
     simp [errRate, List.find?, show ('А' == 'Б') = false from rfl]
     norm_num,
   (C3_weak_spots [('А', 1, 4), ('Б', 4, 1)] ['А', 'Б']
      (by decide) (by decide)).2.2.1,
   (C3_weak_spots [('А', 1, 4), ('Б', 4, 1)] ['А', 'Б']
      (by decide) (by decide)).2.2.2.1⟩

end MorseTrainer
